import Mathlib

/-!
Verification of the affine-transform / clip-projection core of the
inkscape-crop-outside-document-extension repository.

Numbers: the Python source computes with IEEE floats; the embedding uses exact
rationals (ℚ).  All arithmetic in the source (matrix products, the closed-form
affine inverse, point mapping) is rational, so every operation is represented
exactly; tolerance claims (1e-9, 1e-12, 1e-6) are stated over ℚ.
-/

/-- A 2x3 affine matrix, the list-of-rows value
`[[a, c, e], [b, d, f], [0, 0, 1]]` built by `_transform_to_matrix`
(src/mass_crop_to_page.py, lines 18-41).  The bottom row is fixed at
`[0,0,1]` everywhere in the source, so only the six scalars are carried. -/
structure Mat where
  a : ℚ
  b : ℚ
  c : ℚ
  d : ℚ
  e : ℚ
  f : ℚ
deriving DecidableEq, Repr

/-- The identity matrix `[[1,0,0],[0,1,0],[0,0,1]]`. -/
def idMat : Mat := ⟨1, 0, 0, 1, 0, 0⟩

/-- `_transform_to_matrix` (mass_crop_to_page.py lines 18-41): an absent
transform (`None`) becomes the identity matrix, a declared transform its six
scalars. -/
def transform_to_matrix : Option Mat → Mat
  | none => idMat
  | some m => m

/-- `_mat_mult` (mass_crop_to_page.py lines 43-53): the 3x3 product `A*B`
restricted to affine matrices; the bottom row of the result is written as
`[0,0,1]` by the source. -/
def mat_mult (A B : Mat) : Mat :=
  { a := A.a * B.a + A.c * B.b
    b := A.b * B.a + A.d * B.b
    c := A.a * B.c + A.c * B.d
    d := A.b * B.c + A.d * B.d
    e := A.a * B.e + A.c * B.f + A.e
    f := A.b * B.e + A.d * B.f + A.f }

/-- The determinant `det = a * d - b * c` computed in `_mat_inverse`
(mass_crop_to_page.py line 61). -/
def det (M : Mat) : ℚ := M.a * M.d - M.b * M.c

/-- Python's `math.isclose(x, y, abs_tol=t)` with the default relative
tolerance 1e-9: `|x - y| <= max(1e-9 * max(|x|, |y|), t)`. -/
def isclose (x y t : ℚ) : Bool :=
  decide (|x - y| ≤ max ((1 : ℚ) / 10 ^ 9 * max |x| |y|) t)

/-- `_mat_inverse` (mass_crop_to_page.py lines 55-74): returns `none` when
`isclose(det, 0.0, abs_tol=1e-12)`, otherwise the closed-form affine inverse
with bottom row `[0,0,1]`. -/
def mat_inverse (M : Mat) : Option Mat :=
  if isclose (det M) 0 ((1 : ℚ) / 10 ^ 12) then none
  else
    some
      { a := M.d * (1 / det M)
        b := -M.b * (1 / det M)
        c := -M.c * (1 / det M)
        d := M.a * (1 / det M)
        e := (M.c * M.f - M.d * M.e) * (1 / det M)
        f := (M.b * M.e - M.a * M.f) * (1 / det M) }

/-- `_apply_mat_to_point` (mass_crop_to_page.py lines 76-80):
`(x, y) ↦ (a*x + c*y + e, b*x + d*y + f)`. -/
def apply_mat_to_point (M : Mat) (x y : ℚ) : ℚ × ℚ :=
  (M.a * x + M.c * y + M.e, M.b * x + M.d * y + M.f)

/-- Against absolute tolerance 1e-12 the relative term of `isclose` is inert:
the test degenerates to `|x| ≤ 1e-12`. -/
lemma isclose_zero_iff (x : ℚ) :
    isclose x 0 ((1 : ℚ) / 10 ^ 12) = true ↔ |x| ≤ (1 : ℚ) / 10 ^ 12 := by
  unfold isclose
  rw [decide_eq_true_iff]
  constructor
  · intro h
    rcases le_max_iff.mp (by simpa using h) with h1 | h1
    · have hx : |x| = 0 := le_antisymm (by nlinarith [abs_nonneg x]) (abs_nonneg x)
      rw [hx]; positivity
    · rw [one_div]; exact h1
  · intro h
    have h1 : |x| ≤ (10 ^ 12 : ℚ)⁻¹ := by rw [← one_div]; exact h
    simpa using le_max_iff.mpr (Or.inr h1)

/-- If the determinant is not within 1e-12 of zero, `mat_inverse` takes the
else branch and returns the closed-form inverse. -/
lemma mat_inverse_eq_some (M : Mat) (h : ¬ |det M| ≤ (1 : ℚ) / 10 ^ 12) :
    mat_inverse M =
      some
        { a := M.d * (1 / det M)
          b := -M.b * (1 / det M)
          c := -M.c * (1 / det M)
          d := M.a * (1 / det M)
          e := (M.c * M.f - M.d * M.e) * (1 / det M)
          f := (M.b * M.e - M.a * M.f) * (1 / det M) } := by
  have hfalse : isclose (det M) 0 ((1 : ℚ) / 10 ^ 12) = false := by
    rcases Bool.eq_false_or_eq_true (isclose (det M) 0 ((1 : ℚ) / 10 ^ 12)) with hb | hb
    · exact absurd ((isclose_zero_iff (det M)).mp hb) h
    · exact hb
  unfold mat_inverse
  simp only [hfalse, Bool.false_eq_true, if_false]

/-- C7: identity is a two-sided neutral element of `mat_mult`, exactly on all
six scalars. -/
theorem mat_mult_identity_neutral (M : Mat) :
    mat_mult M idMat = M ∧ mat_mult idMat M = M := by
  cases M
  constructor <;> simp [mat_mult, idMat]

/-- A determinant that is not within 1e-12 of zero is nonzero. -/
lemma det_ne_zero_of_not_small (M : Mat) (h : ¬ |det M| ≤ (1 : ℚ) / 10 ^ 12) :
    det M ≠ 0 := by
  intro h0
  apply h
  rw [h0]
  norm_num

/-- Point application distributes over the matrix product. -/
lemma apply_mat_mult (A B : Mat) (x y : ℚ) :
    apply_mat_to_point (mat_mult A B) x y =
      apply_mat_to_point A (apply_mat_to_point B x y).1 (apply_mat_to_point B x y).2 := by
  simp only [apply_mat_to_point, mat_mult, Prod.mk.injEq]
  constructor <;> ring

/-- Whenever `mat_inverse` succeeds, the result is a genuine right inverse:
the product with the original matrix is the identity on all six scalars. -/
lemma mat_mult_mat_inverse (M N : Mat) (h : mat_inverse M = some N) :
    mat_mult M N = idMat := by
  by_cases hd : |det M| ≤ (1 : ℚ) / 10 ^ 12
  · unfold mat_inverse at h
    rw [(isclose_zero_iff (det M)).mpr hd] at h
    simp at h
  · rw [mat_inverse_eq_some M hd] at h
    have hdet := det_ne_zero_of_not_small M hd
    have hdet2 : M.a * M.d - M.b * M.c ≠ 0 := by
      simpa [det] using hdet
    cases h
    cases M
    simp only [mat_mult, idMat, Mat.mk.injEq, det] at *
    refine ⟨?_, ?_, ?_, ?_, ?_, ?_⟩ <;> field_simp <;> ring

/-- C3: `mat_inverse` returns `none` exactly when `|det| = |a*d - b*c|` is
within the fixed epsilon 1e-12 of zero, and otherwise returns a matrix (with
bottom row [0,0,1], which every `Mat` carries implicitly) whose product with
the input is the identity on the six scalars; the function is total, so no
numeric error is ever propagated. -/
theorem mat_inverse_characterization (M : Mat) :
    (mat_inverse M = none ↔ |det M| ≤ (1 : ℚ) / 10 ^ 12) ∧
    (∀ N, mat_inverse M = some N → mat_mult M N = idMat) := by
  constructor
  · constructor
    · intro hnone
      by_contra hd
      rw [mat_inverse_eq_some M hd] at hnone
      exact Option.some_ne_none _ hnone
    · intro hd
      unfold mat_inverse
      rw [(isclose_zero_iff (det M)).mpr hd]
      simp
  · intro N h
    exact mat_mult_mat_inverse M N h

/-- Witness for C3 at the concrete matrix scale(2,2): its inverse is computed
and multiplies back to the identity. -/
theorem mat_inverse_characterization_witness :
    mat_inverse ⟨2, 0, 0, 2, 0, 0⟩ = some ⟨1/2, 0, 0, 1/2, 0, 0⟩ ∧
    mat_mult ⟨2, 0, 0, 2, 0, 0⟩ ⟨1/2, 0, 0, 1/2, 0, 0⟩ = idMat := by
  have h : mat_inverse ⟨2, 0, 0, 2, 0, 0⟩ = some ⟨1/2, 0, 0, 1/2, 0, 0⟩ := by
    rw [mat_inverse_eq_some ⟨2, 0, 0, 2, 0, 0⟩ (by norm_num [det])]
    norm_num [det]
  exact ⟨h, (mat_inverse_characterization ⟨2, 0, 0, 2, 0, 0⟩).2 _ h⟩

/-- C1: round-trip of the clip projection.  For any matrix whose determinant
is not within 1e-12 of zero and any rectangle (left, top, width, height) with
nonnegative width and height, `mat_inverse` succeeds and mapping each of the
four rectangle corners through the inverse and back through the matrix
reproduces the corner within 1e-9 absolute tolerance on both coordinates. -/
theorem roundtrip_clip_projection (M : Mat) (l t w h : ℚ)
    (hdet : ¬ |det M| ≤ (1 : ℚ) / 10 ^ 12) (hw : 0 ≤ w) (hh : 0 ≤ h) :
    ∃ N, mat_inverse M = some N ∧
      ∀ q ∈ [(l, t), (l + w, t), (l + w, t + h), (l, t + h)],
        |(apply_mat_to_point M (apply_mat_to_point N q.1 q.2).1
            (apply_mat_to_point N q.1 q.2).2).1 - q.1| ≤ (1 : ℚ) / 10 ^ 9 ∧
        |(apply_mat_to_point M (apply_mat_to_point N q.1 q.2).1
            (apply_mat_to_point N q.1 q.2).2).2 - q.2| ≤ (1 : ℚ) / 10 ^ 9 := by
  classical
  obtain ⟨N, hN⟩ : ∃ N, mat_inverse M = some N :=
    ⟨_, mat_inverse_eq_some M hdet⟩
  have hprod : mat_mult M N = idMat := mat_mult_mat_inverse M N hN
  have hround : ∀ x y : ℚ,
      apply_mat_to_point M (apply_mat_to_point N x y).1
        (apply_mat_to_point N x y).2 = (x, y) := by
    intro x y
    rw [← apply_mat_mult, hprod]
    simp [apply_mat_to_point, idMat]
  refine ⟨N, hN, ?_⟩
  intro q hq
  rw [hround q.1 q.2]
  norm_num

/-- Witness for C1 at the concrete matrix (2,0,0,1,3,4) and the rectangle
(0, 0, 100, 50). -/
theorem roundtrip_clip_projection_witness :
    (¬ |det ⟨2, 0, 0, 1, 3, 4⟩| ≤ (1 : ℚ) / 10 ^ 12) ∧ (0 : ℚ) ≤ 100 ∧ (0 : ℚ) ≤ 50 ∧
    ∃ N, mat_inverse ⟨2, 0, 0, 1, 3, 4⟩ = some N ∧
      ∀ q ∈ [((0 : ℚ), (0 : ℚ)), (0 + 100, 0), (0 + 100, 0 + 50), (0, 0 + 50)],
        |(apply_mat_to_point ⟨2, 0, 0, 1, 3, 4⟩ (apply_mat_to_point N q.1 q.2).1
            (apply_mat_to_point N q.1 q.2).2).1 - q.1| ≤ (1 : ℚ) / 10 ^ 9 ∧
        |(apply_mat_to_point ⟨2, 0, 0, 1, 3, 4⟩ (apply_mat_to_point N q.1 q.2).1
            (apply_mat_to_point N q.1 q.2).2).2 - q.2| ≤ (1 : ℚ) / 10 ^ 9 :=
  ⟨by norm_num [det], by norm_num, by norm_num,
    roundtrip_clip_projection ⟨2, 0, 0, 1, 3, 4⟩ 0 0 100 50
      (by norm_num [det]) (by norm_num) (by norm_num)⟩

/-- Branch lemma: `mat_inverse` returns `none` when the determinant is within
1e-12 of zero. -/
lemma mat_inverse_eq_none (M : Mat) (h : |det M| ≤ (1 : ℚ) / 10 ^ 12) :
    mat_inverse M = none := by
  unfold mat_inverse
  rw [(isclose_zero_iff (det M)).mpr h]
  simp

/-- The cumulative-transform loop of `apply_clip_to_path`
(mass_crop_to_page.py lines 178-198): `chain` is the list of optional local
transforms collected from the element up to the root
(`[element, parent, ..., root]`); the loop reverses it to root-to-element
order and folds `cum = _mat_mult(cum, _transform_to_matrix(tr))` starting
from the identity. -/
def cumulative_transform (chain : List (Option Mat)) : Mat :=
  chain.reverse.foldl (fun cum t => mat_mult cum (transform_to_matrix t)) idMat

/-- C2: the cumulative transform starts from the identity, folds the
root-to-target reversal of the collected chain through `mat_mult`, the target
node's own transform (head of the collected chain) is multiplied last on the
right (so the root's transform is applied first), and a node with no declared
local transform contributes the identity matrix instead of being skipped. -/
theorem cumulative_transform_build :
    cumulative_transform [] = idMat ∧
    (∀ chain : List (Option Mat),
      cumulative_transform chain =
        (chain.reverse.map transform_to_matrix).foldl mat_mult idMat) ∧
    (∀ (t : Option Mat) (chain : List (Option Mat)),
      cumulative_transform (t :: chain) =
        mat_mult (cumulative_transform chain) (transform_to_matrix t)) ∧
    (∀ l1 l2 : List (Option Mat),
      cumulative_transform (l1 ++ none :: l2) =
        cumulative_transform (l1 ++ some idMat :: l2)) := by
  refine ⟨rfl, ?_, ?_, ?_⟩
  · intro chain
    unfold cumulative_transform
    rw [List.foldl_map]
  · intro t chain
    simp [cumulative_transform, List.foldl_append]
  · intro l1 l2
    unfold cumulative_transform
    have hmap : (l1 ++ none :: l2).reverse.map transform_to_matrix
        = (l1 ++ some idMat :: l2).reverse.map transform_to_matrix := by
      simp [transform_to_matrix]
    calc (l1 ++ none :: l2).reverse.foldl
          (fun cum t => mat_mult cum (transform_to_matrix t)) idMat
        = ((l1 ++ none :: l2).reverse.map transform_to_matrix).foldl
            mat_mult idMat := (List.foldl_map _ _ _ _).symm
      _ = ((l1 ++ some idMat :: l2).reverse.map transform_to_matrix).foldl
            mat_mult idMat := by rw [hmap]
      _ = (l1 ++ some idMat :: l2).reverse.foldl
            (fun cum t => mat_mult cum (transform_to_matrix t)) idMat :=
          List.foldl_map _ _ _ _

/-- The result of `apply_clip_to_path`: either the exact projected clip
polygon (a path element with four points, lines 235-262) or the fallback
axis-aligned rectangle element (x, y, width, height, lines 219-232). -/
inductive ClipResult where
  | poly (p0 p1 p2 p3 : ℚ × ℚ)
  | rect (x y w h : ℚ)
deriving DecidableEq, Repr

/-- One step of the ancestor-translation walk (mass_crop_to_page.py lines
153-165 and 207-218): a declared ancestor transform adds its `(e, f)`
translation components to the accumulator, an absent one adds nothing. -/
def translation_step (acc : ℚ × ℚ) : Option Mat → ℚ × ℚ
  | none => acc
  | some T => (acc.1 + T.e, acc.2 + T.f)

/-- `get_ancestor_translation` (mass_crop_to_page.py lines 141-167, inlined
again in the fallback at lines 207-218): `tx, ty` start at 0 and the walk
over the parent chain accumulates the translation components. -/
def get_ancestor_translation (ancs : List (Option Mat)) : ℚ × ℚ :=
  ancs.foldl translation_step (0, 0)

/-- `apply_clip_to_path` (mass_crop_to_page.py lines 170-268): builds the
cumulative transform of `own :: ancs` (element, then parents up to root),
inverts it; on failure emits the fallback rectangle at
`(-tx + page_left, -ty + page_top)` with the page's width/height, otherwise
maps the four page corners through the inverse into a polygon. -/
def apply_clip_to_path (own : Option Mat) (ancs : List (Option Mat))
    (width height page_left page_top : ℚ) : ClipResult :=
  (mat_inverse (cumulative_transform (own :: ancs))).elim
    (ClipResult.rect (-(get_ancestor_translation ancs).1 + page_left)
      (-(get_ancestor_translation ancs).2 + page_top) width height)
    (fun inv =>
      ClipResult.poly
        (apply_mat_to_point inv page_left page_top)
        (apply_mat_to_point inv (page_left + width) page_top)
        (apply_mat_to_point inv (page_left + width) (page_top + height))
        (apply_mat_to_point inv page_left (page_top + height)))

/-- The translation walk only reads the `(e, f)` components: any rewriting of
the ancestors that preserves `e` and `f` leaves the accumulated offset
unchanged. -/
lemma get_ancestor_translation_only_ef (g : Mat → Mat)
    (hg : ∀ m : Mat, (g m).e = m.e ∧ (g m).f = m.f) :
    ∀ (ancs : List (Option Mat)) (acc : ℚ × ℚ),
      (ancs.map (Option.map g)).foldl translation_step acc =
        ancs.foldl translation_step acc := by
  intro ancs
  induction ancs with
  | nil => intro acc; rfl
  | cons t rest ih =>
      intro acc
      cases t with
      | none => simpa [translation_step] using ih acc
      | some T =>
          have h2 := ih (acc.1 + T.e, acc.2 + T.f)
          simpa [translation_step, (hg T).1, (hg T).2] using h2

/-- C4: when the cumulative transform is not invertible, `apply_clip_to_path`
emits the fallback `ClipResult.rect` — an axis-aligned rectangle element by
construction — with exactly the page width and height, positioned at the
reference origin `(page_left, page_top)` offset by the negative of the summed
ancestor translation components; and that sum ignores every non-translation
component of the ancestors (any change to a, b, c, d leaves it unchanged). -/
theorem degenerate_fallback_rect (own : Option Mat) (ancs : List (Option Mat))
    (w h pl pt : ℚ)
    (hinv : mat_inverse (cumulative_transform (own :: ancs)) = none) :
    apply_clip_to_path own ancs w h pl pt =
      ClipResult.rect (pl - (get_ancestor_translation ancs).1)
        (pt - (get_ancestor_translation ancs).2) w h ∧
    ∀ g : Mat → Mat, (∀ m : Mat, (g m).e = m.e ∧ (g m).f = m.f) →
      get_ancestor_translation (ancs.map (Option.map g)) =
        get_ancestor_translation ancs := by
  constructor
  · simp only [apply_clip_to_path, hinv, Option.elim]
    congr 1 <;> ring
  · intro g hg
    exact get_ancestor_translation_only_ef g hg ancs (0, 0)

/-- Witness for C4: a degenerate ancestor scale(0,1) with translation (7,3)
triggers the fallback, producing the axis-aligned rectangle at (-7,-3). -/
theorem degenerate_fallback_rect_witness :
    mat_inverse (cumulative_transform [none, some ⟨0, 0, 0, 1, 7, 3⟩]) = none ∧
    apply_clip_to_path none [some ⟨0, 0, 0, 1, 7, 3⟩] 100 50 0 0 =
      ClipResult.rect (-7) (-3) 100 50 := by
  have hinv : mat_inverse (cumulative_transform [none, some ⟨0, 0, 0, 1, 7, 3⟩]) = none := by
    apply mat_inverse_eq_none
    norm_num [cumulative_transform, transform_to_matrix, mat_mult, idMat, det]
  refine ⟨hinv, ?_⟩
  rw [(degenerate_fallback_rect none [some ⟨0, 0, 0, 1, 7, 3⟩] 100 50 0 0 hinv).1]
  norm_num [get_ancestor_translation, translation_step]

/-- C6: a target node with no transform of its own, a single non-root
ancestor carrying translate(10,20), and a transformless root; projecting the
page rectangle (0,0,100,50) yields exactly the local polygon
[(-10,-20), (90,-20), (90,30), (-10,30)] in that order. -/
theorem scenario_single_translate_ancestor :
    apply_clip_to_path none [some ⟨1, 0, 0, 1, 10, 20⟩, none] 100 50 0 0 =
      ClipResult.poly (-10, -20) (90, -20) (90, 30) (-10, 30) := by
  have hcum : cumulative_transform [none, some ⟨1, 0, 0, 1, 10, 20⟩, none] =
      ⟨1, 0, 0, 1, 10, 20⟩ := by
    norm_num [cumulative_transform, transform_to_matrix, mat_mult, idMat, Mat.mk.injEq]
  have hsome : mat_inverse (cumulative_transform [none, some ⟨1, 0, 0, 1, 10, 20⟩, none]) =
      some ⟨1, 0, 0, 1, -10, -20⟩ := by
    rw [hcum, mat_inverse_eq_some ⟨1, 0, 0, 1, 10, 20⟩ (by norm_num [det])]
    norm_num [det, Mat.mk.injEq]
  simp only [apply_clip_to_path, hsome, Option.elim]
  norm_num [apply_mat_to_point, Prod.mk.injEq]

/-- The bounding box of a path element, as returned by `path.bounding_box()`
(mass_crop_to_page.py line 123). -/
structure BBox where
  left : ℚ
  top : ℚ
  right : ℚ
  bottom : ℚ
deriving DecidableEq, Repr

/-- `crop_path_to_rect` (mass_crop_to_page.py lines 119-136): no bounding box
or a bounding box inside `(0,0)-(width,height)` leaves the element untouched
(`none`); otherwise the clip of `apply_clip_to_path` (called with the default
`page_left = page_top = 0`) is attached (`some`). -/
def crop_path_to_rect (bbox : Option BBox) (own : Option Mat)
    (ancs : List (Option Mat)) (width height : ℚ) : Option ClipResult :=
  bbox.elim none (fun b =>
    if b.left ≥ 0 ∧ b.right ≤ width ∧ b.top ≥ 0 ∧ b.bottom ≤ height then none
    else some (apply_clip_to_path own ancs width height 0 0))

/-- C10: a path whose bounding box lies inside `(0,0)-(width,height)` —
compared against 0, not against the page's left/top origin — is returned
unmodified: no clip is attached and no clip definition is created. -/
theorem prefilter_inside_no_clip (b : BBox) (own : Option Mat)
    (ancs : List (Option Mat)) (w h : ℚ)
    (h1 : b.left ≥ 0) (h2 : b.right ≤ w) (h3 : b.top ≥ 0) (h4 : b.bottom ≤ h) :
    crop_path_to_rect (some b) own ancs w h = none := by
  unfold crop_path_to_rect
  simp only [Option.elim_some]
  rw [if_pos ⟨h1, h2, h3, h4⟩]

/-- Witness for C10: a box (10,5)-(90,40) inside the 100x50 page is left
untouched. -/
theorem prefilter_inside_no_clip_witness :
    (10 : ℚ) ≥ 0 ∧ (90 : ℚ) ≤ 100 ∧ (5 : ℚ) ≥ 0 ∧ (40 : ℚ) ≤ 50 ∧
    crop_path_to_rect (some ⟨10, 5, 90, 40⟩) none [] 100 50 = none :=
  ⟨by norm_num, by norm_num, by norm_num, by norm_num,
    prefilter_inside_no_clip ⟨10, 5, 90, 40⟩ none [] 100 50
      (by norm_num) (by norm_num) (by norm_num) (by norm_num)⟩

/-- Modelled from the spec: the equality test used by inkex `Transform`
objects in `new_transform != Transform()` (flatten_groups.py line 86) —
"equals identity (within tolerance on all six components)".  The inkex
library itself is outside this repository; its comparison is an absolute
per-component tolerance. -/
def transform_close (A B : Mat) : Bool :=
  decide (|A.a - B.a| ≤ (1 : ℚ) / 10 ^ 6 ∧ |A.b - B.b| ≤ (1 : ℚ) / 10 ^ 6 ∧
    |A.c - B.c| ≤ (1 : ℚ) / 10 ^ 6 ∧ |A.d - B.d| ≤ (1 : ℚ) / 10 ^ 6 ∧
    |A.e - B.e| ≤ (1 : ℚ) / 10 ^ 6 ∧ |A.f - B.f| ≤ (1 : ℚ) / 10 ^ 6)

/-- Transform absorption (flatten_groups.py lines 71-93): the relocated
child's new transform is `element_transform @ child_transform`; if that
composition compares equal to `Transform()` (the identity) the transform
attribute is removed (`none`), otherwise it is set to the composition
(`some`).  Absent attributes contribute `Transform()`, i.e. the identity. -/
def absorb_transform (elemT childT : Option Mat) : Option Mat :=
  if transform_close (mat_mult (transform_to_matrix elemT) (transform_to_matrix childT)) idMat
  then none
  else some (mat_mult (transform_to_matrix elemT) (transform_to_matrix childT))

/-- C5: a node relocated out of its container acquires
`compose(element, child)` as its local transform; when that composition is
the identity within tolerance on all six components the attribute is removed
entirely rather than stored; in particular composing two exact inverses
leaves the relocated node with no transform attribute. -/
theorem absorb_transform_spec (elemT childT : Option Mat) :
    (transform_close (mat_mult (transform_to_matrix elemT) (transform_to_matrix childT))
        idMat = false →
      absorb_transform elemT childT =
        some (mat_mult (transform_to_matrix elemT) (transform_to_matrix childT))) ∧
    (transform_close (mat_mult (transform_to_matrix elemT) (transform_to_matrix childT))
        idMat = true →
      absorb_transform elemT childT = none) ∧
    (∀ A B : Mat, elemT = some A → childT = some B → mat_mult A B = idMat →
      absorb_transform elemT childT = none) := by
  refine ⟨?_, ?_, ?_⟩
  · intro hfar
    unfold absorb_transform
    rw [hfar]
    simp
  · intro hclose
    unfold absorb_transform
    rw [hclose]
    simp
  · intro A B hA hB hinv
    subst hA
    subst hB
    unfold absorb_transform
    have hclose : transform_close
        (mat_mult (transform_to_matrix (some A)) (transform_to_matrix (some B))) idMat = true := by
      simp only [transform_to_matrix, hinv, transform_close]
      norm_num
    rw [hclose]
    simp

/-- Witness for C5, spec scenario 5: container translate(5,0), child
translate(0,3) composes to translate(5,3), which is kept; and a
translate(4,0) child under a translate(-4,0) container composes to the exact
identity, so the attribute is removed. -/
theorem absorb_transform_spec_witness :
    absorb_transform (some ⟨1, 0, 0, 1, 5, 0⟩) (some ⟨1, 0, 0, 1, 0, 3⟩) =
      some (mat_mult ⟨1, 0, 0, 1, 5, 0⟩ ⟨1, 0, 0, 1, 0, 3⟩) ∧
    absorb_transform (some ⟨1, 0, 0, 1, -4, 0⟩) (some ⟨1, 0, 0, 1, 4, 0⟩) = none := by
  constructor
  · exact (absorb_transform_spec (some ⟨1, 0, 0, 1, 5, 0⟩) (some ⟨1, 0, 0, 1, 0, 3⟩)).1
      (by simp only [transform_to_matrix, transform_close, mat_mult, idMat]; norm_num)
  · exact (absorb_transform_spec (some ⟨1, 0, 0, 1, -4, 0⟩) (some ⟨1, 0, 0, 1, 4, 0⟩)).2.2
      ⟨1, 0, 0, 1, -4, 0⟩ ⟨1, 0, 0, 1, 4, 0⟩ rfl rfl
      (by simp only [mat_mult, idMat, Mat.mk.injEq]; norm_num)

/-- A document node as seen by the FlattenGroups work-list: a distinct object
identity (the underlying element object) and the value of its id attribute
(`element.get('id')`, flatten_groups.py line 45), possibly absent. -/
structure FNode where
  ident : ℕ
  idAttr : Option ℕ
deriving DecidableEq, Repr

/-- The loop state of `FlattenGroups.effect` (flatten_groups.py lines
38-106): the growing work list `elements_to_process`, the index `i`, the
id-value keyed set `processed_ids`, and the ordered log of the nodes that
reached the processing body. -/
structure LoopState where
  pending : List FNode
  i : ℕ
  seenIds : List (Option ℕ)
  plog : List FNode
deriving DecidableEq, Repr

/-- One fuel-bounded run of the while loop (flatten_groups.py lines 43-106):
the element at index `i` is skipped when its id value is already in
`processed_ids` (lines 48-50); otherwise its id value is added (line 52), it
is processed, and its moved container children are appended to the work list
(line 96).  `children` abstracts which container children a node yields when
processed; a node with no parent or no container children yields `[]` (it is
still marked processed, since line 52 runs before those checks). -/
def loop_run (children : FNode → List FNode) : ℕ → LoopState → LoopState
  | 0, s => s
  | fuel + 1, s =>
      match s.pending.get? s.i with
      | none => s
      | some n =>
          if n.idAttr ∈ s.seenIds then
            loop_run children fuel ⟨s.pending, s.i + 1, s.seenIds, s.plog⟩
          else
            loop_run children fuel
              ⟨s.pending ++ children n, s.i + 1, n.idAttr :: s.seenIds, s.plog ++ [n]⟩

/-- The loop invariant: the logged nodes have pairwise distinct id values,
and every logged id value is in the seen set. -/
def loop_inv (s : LoopState) : Prop :=
  (s.plog.map FNode.idAttr).Nodup ∧ ∀ n ∈ s.plog, n.idAttr ∈ s.seenIds

/-- `loop_run` preserves the loop invariant from any starting state. -/
lemma loop_run_preserves_inv (children : FNode → List FNode) :
    ∀ (fuel : ℕ) (s : LoopState), loop_inv s → loop_inv (loop_run children fuel s) := by
  intro fuel
  induction fuel with
  | zero => intro s hs; exact hs
  | succ fuel ih =>
      intro s hs
      rw [loop_run]
      cases hget : s.pending.get? s.i with
      | none => exact hs
      | some n =>
          dsimp only
          by_cases hmem : n.idAttr ∈ s.seenIds
          · rw [if_pos hmem]
            exact ih _ hs
          · rw [if_neg hmem]
            apply ih
            constructor
            · have hnot : n.idAttr ∉ s.plog.map FNode.idAttr := by
                intro hin
                rcases List.mem_map.mp hin with ⟨m, hm, hEq⟩
                exact hmem (hEq ▸ hs.2 m hm)
              simp only [List.map_append, List.map_cons, List.map_nil]
              rw [List.nodup_append]
              refine ⟨hs.1, List.nodup_singleton _, ?_⟩
              intro x hx hx2
              rcases List.mem_singleton.mp hx2 with rfl
              exact hnot hx
            · intro m hm
              rcases List.mem_append.mp hm with hm1 | hm1
              · exact List.mem_cons_of_mem _ (hs.2 m hm1)
              · rcases List.mem_singleton.mp hm1 with rfl
                exact List.mem_cons_self _ _

/-- C8 (amended): the flatten work-list loop never processes a node twice —
starting from any initial work list, after any number of iterations each
node occurs at most once in the processing log.  (The seen set is keyed by
the id attribute value, which is coarser than object identity, so the
at-most-once bound holds a fortiori.) -/
theorem worklist_processed_at_most_once (children : FNode → List FNode)
    (fuel : ℕ) (pending0 : List FNode) (n : FNode) :
    (loop_run children fuel ⟨pending0, 0, [], []⟩).plog.count n ≤ 1 := by
  have hinv : loop_inv (loop_run children fuel ⟨pending0, 0, [], []⟩) :=
    loop_run_preserves_inv children fuel ⟨pending0, 0, [], []⟩ (by constructor <;> simp)
  have hnd : (loop_run children fuel ⟨pending0, 0, [], []⟩).plog.Nodup :=
    List.Nodup.of_map FNode.idAttr hinv.1
  exact List.nodup_iff_count_le_one.mp hnd n

/-- Counterexample for C8 as stated: the seen set of
`FlattenGroups.effect` is keyed by the id attribute value, not by node
identity.  Two distinct nodes share the id value 5; the loop processes the
first and then skips the second although the second node itself was never
processed — under an identity-based seen set the second would have been
processed, not skipped. -/
theorem seen_set_not_identity_based :
    (⟨1, some 5⟩ : FNode) ≠ ⟨2, some 5⟩ ∧
    (⟨2, some 5⟩ : FNode) ∈ [(⟨1, some 5⟩ : FNode), ⟨2, some 5⟩] ∧
    (loop_run (fun _ => []) 5 ⟨[⟨1, some 5⟩, ⟨2, some 5⟩], 0, [], []⟩).plog
      = [⟨1, some 5⟩] ∧
    (⟨2, some 5⟩ : FNode) ∉
      (loop_run (fun _ => []) 5 ⟨[⟨1, some 5⟩, ⟨2, some 5⟩], 0, [], []⟩).plog := by
  refine ⟨by decide, by decide, by decide, by decide⟩

/-- Run-level messages: the per-element error of the try/except in
`MassCropToPage.effect` (mass_crop_to_page.py lines 115-117), the
non-invertible fallback warning (line 205), an aggregate-counts report
(processed, skipped, degraded-fallback-used), and the final flatten
summary of the moved total (flatten_groups.py line 108). -/
inductive Msg where
  | pathError (id : ℕ)
  | fallbackWarning (id : ℕ)
  | counts (processed skipped degraded : ℕ)
  | flattenDone (moved : ℕ)
deriving DecidableEq, Repr

/-- A path element consumed by `MassCropToPage.effect`: its id, whether
converting its path data raises (the failure caught at lines 115-117), its
bounding box, and its own/ancestor transforms. -/
structure PathItem where
  id : ℕ
  parseFails : Bool
  bbox : Option BBox
  own : Option Mat
  ancs : List (Option Mat)
deriving DecidableEq, Repr

/-- The warning emitted when `apply_clip_to_path` takes the non-invertible
fallback branch (mass_crop_to_page.py line 205), and nothing otherwise. -/
def fallback_warning (i : ℕ) : Option ClipResult → List Msg
  | some (ClipResult.rect _ _ _ _) => [Msg.fallbackWarning i]
  | _ => []

/-- `MassCropToPage.effect` (mass_crop_to_page.py lines 84-117) over its
path list: each path is handled inside try/except — a failure appends an
error message and the loop continues with the next path; otherwise
`crop_path_to_rect` decides whether a clip is attached (entering the
fallback also emits the line-205 warning).  Returns the emitted messages and
the per-path crop outcomes, in document order. -/
def mass_crop_effect (width height : ℚ) :
    List PathItem → List Msg × List (ℕ × Option ClipResult)
  | [] => ([], [])
  | p :: rest =>
      let tail := mass_crop_effect width height rest
      if p.parseFails then (Msg.pathError p.id :: tail.1, tail.2)
      else
        ((fallback_warning p.id (crop_path_to_rect p.bbox p.own p.ancs width height))
            ++ tail.1,
          (p.id, crop_path_to_rect p.bbox p.own p.ancs width height) :: tail.2)

/-- No call of `fallback_warning` produces an aggregate-counts message. -/
lemma counts_not_in_fallback_warning (i a b c : ℕ) (r : Option ClipResult) :
    Msg.counts a b c ∉ fallback_warning i r := by
  intro hmem
  cases r with
  | none => simp [fallback_warning] at hmem
  | some cr =>
      cases cr with
      | poly p0 p1 p2 p3 => simp [fallback_warning] at hmem
      | rect x y w h => simp [fallback_warning] at hmem

/-- C9 (amended): a failure on one path element is reported and that element
is skipped, while every remaining element is still processed — the outcomes
are exactly those of the non-failing elements, in order, no matter how many
elements fail — and no aggregate (processed, skipped, degraded) counts
message is ever emitted. -/
theorem effect_error_containment (w h : ℚ) (items : List PathItem) :
    (mass_crop_effect w h items).2 =
      (items.filter (fun p => !p.parseFails)).map
        (fun p => (p.id, crop_path_to_rect p.bbox p.own p.ancs w h)) ∧
    (∀ p ∈ items, p.parseFails = true →
      Msg.pathError p.id ∈ (mass_crop_effect w h items).1) ∧
    (∀ a b c : ℕ, Msg.counts a b c ∉ (mass_crop_effect w h items).1) := by
  induction items with
  | nil =>
      refine ⟨rfl, ?_, ?_⟩
      · intro p hp
        exact absurd hp (List.not_mem_nil p)
      · intro a b c hmem
        exact absurd hmem (List.not_mem_nil _)
  | cons p rest ih =>
      by_cases hp : p.parseFails
      · refine ⟨?_, ?_, ?_⟩
        · simp only [mass_crop_effect, hp, if_true, List.filter_cons,
            Bool.not_true, Bool.false_eq_true, if_false]
          exact ih.1
        · intro q hq hqf
          simp only [mass_crop_effect, hp, if_true]
          rcases List.mem_cons.mp hq with rfl | hq2
          · exact List.mem_cons_self _ _
          · exact List.mem_cons_of_mem _ (ih.2.1 q hq2 hqf)
        · intro a b c hmem
          simp only [mass_crop_effect, hp, if_true] at hmem
          rcases List.mem_cons.mp hmem with hbad | hmem2
          · exact Msg.noConfusion hbad
          · exact ih.2.2 a b c hmem2
      · have hp2 : p.parseFails = false := by simpa using hp
        refine ⟨?_, ?_, ?_⟩
        · simp only [mass_crop_effect, hp2, Bool.false_eq_true, if_false,
            List.filter_cons, Bool.not_false, if_true, List.map_cons]
          rw [ih.1]
        · intro q hq hqf
          simp only [mass_crop_effect, hp2, Bool.false_eq_true, if_false]
          rcases List.mem_cons.mp hq with rfl | hq2
          · rw [hp2] at hqf
            exact absurd hqf (by simp)
          · exact List.mem_append_right _ (ih.2.1 q hq2 hqf)
        · intro a b c hmem
          simp only [mass_crop_effect, hp2, Bool.false_eq_true, if_false] at hmem
          rcases List.mem_append.mp hmem with hbad | hmem2
          · exact counts_not_in_fallback_warning p.id a b c _ hbad
          · exact ih.2.2 a b c hmem2

/-- Witness for C9 (amended) on a concrete batch: the first element fails to
parse, its error is reported, and the second element is still processed. -/
theorem effect_error_containment_witness :
    (⟨1, true, none, none, []⟩ : PathItem) ∈
      [(⟨1, true, none, none, []⟩ : PathItem), ⟨2, false, some ⟨0, 0, 10, 10⟩, none, []⟩] ∧
    Msg.pathError 1 ∈
      (mass_crop_effect 100 50
        [⟨1, true, none, none, []⟩, ⟨2, false, some ⟨0, 0, 10, 10⟩, none, []⟩]).1 :=
  ⟨List.mem_cons_self _ _,
    (effect_error_containment 100 50
      [⟨1, true, none, none, []⟩, ⟨2, false, some ⟨0, 0, 10, 10⟩, none, []⟩]).2.1
      ⟨1, true, none, none, []⟩ (List.mem_cons_self _ _) rfl⟩

/-- Recognizer for the aggregate-counts message. -/
def is_counts_msg : Msg → Bool
  | Msg.counts _ _ _ => true
  | _ => false

/-- Counterexample for C9 as stated: on a concrete batch with one failing and
one succeeding element, the failure is reported and the other element is
still processed, but the run's message list is exactly the per-element error
— no aggregate (processed, skipped, degraded-fallback-used) counts message
is reported at the end of the run. -/
theorem no_aggregate_counts_reported :
    (mass_crop_effect 100 50
        [⟨1, true, none, none, []⟩, ⟨2, false, some ⟨0, 0, 10, 10⟩, none, []⟩]).1
      = [Msg.pathError 1] ∧
    (mass_crop_effect 100 50
        [⟨1, true, none, none, []⟩, ⟨2, false, some ⟨0, 0, 10, 10⟩, none, []⟩]).2
      = [(2, none)] ∧
    ((mass_crop_effect 100 50
        [⟨1, true, none, none, []⟩, ⟨2, false, some ⟨0, 0, 10, 10⟩, none, []⟩]).1.any
      is_counts_msg) = false := by
  have hcrop : crop_path_to_rect (some ⟨0, 0, 10, 10⟩) none [] 100 50 = none := by
    unfold crop_path_to_rect
    simp only [Option.elim_some]
    rw [if_pos]
    norm_num
  refine ⟨?_, ?_, ?_⟩ <;>
    simp [mass_crop_effect, hcrop, fallback_warning, is_counts_msg]
